import Mathlib

/-!
Shallow embedding of the rlox interpreter (src/: scanner.rs, token.rs,
parser.rs, expression.rs, statement.rs, environment.rs, interpreter.rs,
value.rs, lib.rs) and verification of the claims about its specification.

Modelling conventions:
* Rust `f64` numbers are modelled as `ℚ`.  Every claim under verification
  only exercises small integer arithmetic, where `f64` is exact, so the
  rational model agrees with the code on all evaluated inputs.
* Rust `HashMap<String, Rc<Value>>` is modelled as an association list
  with insert-replaces-existing-key semantics; only key-based operations
  (`insert`, `get`, `contains_key`) are ever used by the code.
* The `Rc<RefCell<Environment>>` chain of scopes is modelled as a list of
  scopes, head = innermost; the enclosing pointer is the tail.
* Panics (`unwrap` failures) are modelled as `none` results.
* The scanner and parser loops, and the statement interpreter, are given
  explicit fuel; the top-level entry points supply fuel that is large
  enough for every evaluated input (running out of fuel yields an error
  value that never arises on the inputs considered).
-/

set_option maxRecDepth 100000

namespace RLox

/-- Exact rational numbers standing in for Rust `f64`: an (unreduced)
numerator/denominator pair with structural arithmetic, so that every
operation reduces in the kernel.  Values built by the embedding keep a
positive denominator (literals have a power-of-ten denominator, the
ring operations multiply denominators, division fixes the sign).  All
arithmetic any claim evaluates stays within small integers, where
`f64` is exact, so this model agrees with the code on all evaluated
inputs. -/
structure QM where
  num : Int
  den : Int
  deriving Repr, DecidableEq

instance (n : Nat) : OfNat QM n := ⟨⟨(n : Int), 1⟩⟩

instance : Add QM := ⟨fun a b => ⟨a.num * b.den + b.num * a.den, a.den * b.den⟩⟩

instance : Sub QM := ⟨fun a b => ⟨a.num * b.den - b.num * a.den, a.den * b.den⟩⟩

instance : Mul QM := ⟨fun a b => ⟨a.num * b.num, a.den * b.den⟩⟩

instance : Neg QM := ⟨fun a => ⟨-a.num, a.den⟩⟩

/-- Exact division, keeping the denominator positive. -/
def QM.div (a b : QM) : QM :=
  let n := a.num * b.den
  let d := a.den * b.num
  if d < 0 then ⟨-n, -d⟩ else ⟨n, d⟩

/-- Numeric equality (`f64 ==` on the finite values the code builds):
cross-multiplied comparison of the fractions. -/
def QM.eqv (a b : QM) : Bool := a.num * b.den = b.num * a.den

/-- Test against `0.0`, used by the division-by-zero guard. -/
def QM.isZero (a : QM) : Bool := a.num = 0

/-- Numeric strict order (valid on the positive-denominator values the
embedding builds). -/
def QM.blt (a b : QM) : Bool := decide (a.num * b.den < b.num * a.den)

/-- Numeric non-strict order. -/
def QM.ble (a b : QM) : Bool := decide (a.num * b.den ≤ b.num * a.den)

/-- Runtime values, from value.rs `Value`.  `Number` is modelled by
`QM` (see its doc); the `Callable` variant is out of the modelled core
(spec: reserved, unimplemented) and is omitted. -/
inductive Val where
  | nil
  | str (s : String)
  | num (q : QM)
  | boolean (b : Bool)
  | identifier (s : String)
  | comment (s : String)
  deriving Repr, DecidableEq

/-- Token kinds, from token.rs (the `TokenType` used by scanner.rs and
parser.rs). -/
inductive TokenType where
  | leftParen | rightParen | leftBrace | rightBrace | comma | dot | minus | plus | semicolon
  | slash | star | bangEqual | bang | equalEqual | equal
  | greaterEqual | greater | lessEqual | less
  | and_ | class_ | else_ | fun_ | for_ | if_ | or_ | print_ | return_
  | super_ | this_ | var_ | while_ | continue_ | break_
  | false_ | nil_ | true_
  | identifier | str | number | comment
  | eof | invalid
  deriving Repr, DecidableEq

/-- Fixed lexeme of the non-variable-length token kinds, from
token.rs `Token::lexeme`. -/
def TokenType.lexemeStr : TokenType → String
  | .leftParen => "(" | .rightParen => ")" | .leftBrace => "\x7b" | .rightBrace => "\x7d"
  | .comma => "," | .dot => "." | .minus => "-" | .plus => "+" | .semicolon => ";"
  | .slash => "/" | .star => "*" | .bangEqual => "!=" | .bang => "!"
  | .equalEqual => "==" | .equal => "=" | .greaterEqual => ">=" | .greater => ">"
  | .lessEqual => "<=" | .less => "<"
  | .and_ => "and" | .class_ => "class" | .else_ => "else" | .fun_ => "fun"
  | .for_ => "for" | .if_ => "if" | .or_ => "or" | .print_ => "print"
  | .return_ => "return" | .super_ => "super" | .this_ => "this" | .var_ => "var"
  | .while_ => "while" | .continue_ => "continue" | .break_ => "break"
  | .false_ => "false" | .nil_ => "nil" | .true_ => "true"
  | .identifier => "" | .str => "" | .number => "" | .comment => ""
  | .eof => "EOF" | .invalid => ""

/-- Constant literal payload of the const-literal keyword tokens, from
token.rs `Token::literal` (False/Nil/True carry a value, everything
else built by `Token::simple` carries none). -/
def TokenType.constLiteral : TokenType → Option Val
  | .false_ => some (.boolean false)
  | .nil_ => some .nil
  | .true_ => some (.boolean true)
  | _ => none

/-- Tokens, from token.rs: a kind, the source lexeme, an optional literal
payload and the source line. -/
structure Token where
  tokenType : TokenType
  lexeme : String
  literal : Option Val
  line : Nat
  deriving Repr, DecidableEq

/-- Constructor `Token::simple` from token.rs: lexeme and literal are
determined by the token kind. -/
def Token.simple (tt : TokenType) (line : Nat) : Token :=
  ⟨tt, tt.lexemeStr, tt.constLiteral, line⟩

/-- Constructor `Token::with_lexeme` from token.rs. -/
def Token.withLexeme (tt : TokenType) (lexeme : String) (line : Nat) : Token :=
  ⟨tt, lexeme, none, line⟩

/-- Constructor `Token::with_literal` from token.rs. -/
def Token.withLiteral (tt : TokenType) (lexeme : String) (lit : Val) (line : Nat) : Token :=
  ⟨tt, lexeme, some lit, line⟩

/-! ## Scanner (scanner.rs) -/

/-- Helper `consume_next_if` from scanner.rs: two-character operator
lookahead with single-character fallback. -/
def consumeNextIf (cs : List Char) (line : Nat) (nextIsC : Char)
    (success failure : TokenType) : Token × List Char :=
  match cs with
  | c :: rest => if c = nextIsC then (Token.simple success line, rest)
                 else (Token.simple failure line, c :: rest)
  | [] => (Token.simple failure line, [])

/-- Body of the line-comment loop of `consume_slash_or_comment`
(scanner.rs): consume up to and including the newline; the newline is
not part of the comment text.  Returns the comment characters, the
remaining input and whether a newline was consumed. -/
def lineCommentChars : List Char → List Char × List Char × Bool
  | [] => ([], [], false)
  | c :: rest =>
    if c = '\n' then ([], rest, true)
    else
      let r := lineCommentChars rest
      (c :: r.1, r.2.1, r.2.2)

/-- Helper `consume_block_comment` from scanner.rs with explicit fuel
(the Rust loop advances the shared iterator).  Faithful details: a
nested `/*` recurses; at `*/` the `*` and `/` are appended to the
comment text but the terminating `/` is left in the input (the Rust
code only peeks at it); a lone `/` inside the comment is dropped from
the accumulated text. -/
def blockComment : Nat → List Char → List Char → Nat → List Char × List Char × Nat
  | 0, acc, cs, line => (acc, cs, line)
  | _ + 1, acc, [], line => (acc, [], line)
  | fuel + 1, acc, c :: rest, line =>
    if c = '/' then
      match rest with
      | '*' :: rest2 =>
        let r := blockComment fuel (acc ++ ['/', '*']) rest2 line
        blockComment fuel r.1 r.2.1 r.2.2
      | _ => blockComment fuel acc rest line
    else if c = '*' then
      match rest with
      | '/' :: _ => (acc ++ ['*', '/'], rest, line)
      | _ => blockComment fuel (acc ++ ['*']) rest line
    else
      blockComment fuel (acc ++ [c]) rest (if c = '\n' then line + 1 else line)

/-- Helper `consume_slash_or_comment` from scanner.rs, entered after the
first `/` has been consumed: a second `/` starts a line comment, a `*`
starts a block comment, anything else is the division operator. -/
def consumeSlashOrComment (cs : List Char) (line : Nat) : Token × List Char × Nat :=
  match cs with
  | c :: rest =>
    if c = '/' then
      let r := lineCommentChars cs
      (Token.withLexeme .comment ⟨'/' :: r.1⟩ line, r.2.1, if r.2.2 then line + 1 else line)
    else if c = '*' then
      let r := blockComment (rest.length + 1) [] rest line
      (Token.withLexeme .comment ⟨'/' :: '*' :: r.1⟩ line, r.2.1, r.2.2)
    else (Token.simple .slash line, c :: rest, line)
  | [] => (Token.simple .slash line, [], line)

/-- Loop of `consume_string` from scanner.rs.  The accumulated text `s`
already contains the opening quote; each character is pushed *before*
the terminator test, exactly as in the Rust code (`s.push(c)` precedes
the `ends_with` checks), so the `ends_with` tests inspect a string that
already ends in the just-pushed character.  Returns the accumulated
text (including a closing quote when one was found), the remaining
input and the updated line. -/
def consumeStringLoop : List Char → List Char → Nat → List Char × List Char × Nat
  | [], s, line => (s, [], line)
  | c :: rest, s, line =>
    let s' := s ++ [c]
    let line' := if c = '\n' then line + 1 else line
    if c = '"' ∧ (¬ ['\\'].isSuffixOf s' ∨ ['\\', '\\'].isSuffixOf s') then (s', rest, line')
    else consumeStringLoop rest s' line'

/-- Helper `consume_string` from scanner.rs, entered after the opening
quote has been consumed.  A token is produced only when the input is
not exhausted after the loop (`iter.peek() != None`); otherwise no
token is produced for the run. -/
def consumeString (cs : List Char) (line : Nat) : Option Token × List Char × Nat :=
  let r := consumeStringLoop cs ['"'] line
  match r.2.1 with
  | [] => (none, [], r.2.2)
  | rest =>
    let s := r.1
    let inner : List Char := (s.drop 1).dropLast
    (some (Token.withLiteral .str ⟨s⟩ (.str ⟨inner⟩) line), rest, r.2.2)

/-- Maximal run of digits and dots, from the loop of `consume_number`
(scanner.rs): the Rust loop accepts `is_numeric()` characters and `.`
without restriction. -/
def numberChars : List Char → List Char × List Char
  | [] => ([], [])
  | c :: rest =>
    if c.isDigit ∨ c = '.' then
      let r := numberChars rest
      (c :: r.1, r.2)
    else ([], c :: rest)

/-- Value of a digit string. -/
def digitsVal (ds : List Char) : ℕ :=
  ds.foldl (fun a c => a * 10 + (c.toNat - '0'.toNat)) 0

/-- Split a character list at the first dot. -/
def splitAtDot : List Char → List Char × Option (List Char)
  | [] => ([], none)
  | c :: rest =>
    if c = '.' then ([], some rest)
    else
      let r := splitAtDot rest
      (c :: r.1, r.2)

/-- Model of Rust `str::parse::<f64>` restricted to the lexemes
`consume_number` can produce (a digit followed by digits and dots):
such a lexeme parses iff it contains at most one dot; the parsed value
of `d₁…dₖ.f₁…fₘ` is exact for these inputs.  `none` models a parse
failure (and hence the `unwrap` panic at the call site). -/
def parseNumLexeme (cs : List Char) : Option QM :=
  let p := splitAtDot cs
  match p.2 with
  | none =>
    if p.1 ≠ [] ∧ p.1.all Char.isDigit then some ⟨(digitsVal p.1 : Int), 1⟩ else none
  | some fp =>
    if p.1 ≠ [] ∧ p.1.all Char.isDigit ∧ fp.all Char.isDigit then
      some ⟨(digitsVal p.1 : Int) * 10 ^ fp.length + (digitsVal fp : Int), (10 : Int) ^ fp.length⟩
    else none

/-- Helper `consume_number` from scanner.rs, entered after the first
digit has been consumed.  The Rust code ends with
`Value::Number(n.parse().unwrap())`; the `none` result models the
panic of that `unwrap` when the lexeme is not a valid number. -/
def consumeNumber (cs : List Char) (firstChar : Char) (line : Nat) :
    Option Token × List Char :=
  let r := numberChars cs
  let lexeme := firstChar :: r.1
  match parseNumLexeme lexeme with
  | some q => (some (Token.withLiteral .number ⟨lexeme⟩ (.num q) line), r.2)
  | none => (none, r.2)

/-- Maximal alphanumeric run, from the loop of
`consume_identifier_or_keyword` (scanner.rs). -/
def identChars : List Char → List Char × List Char
  | [] => ([], [])
  | c :: rest =>
    if c.isAlphanum then
      let r := identChars rest
      (c :: r.1, r.2)
    else ([], c :: rest)

/-- The `KEYWORDS` table from scanner.rs (18 entries). -/
def keywordToken (s : String) : Option (Nat → Token) :=
  if s = "and" then some (Token.simple .and_)
  else if s = "break" then some (Token.simple .break_)
  else if s = "class" then some (Token.simple .class_)
  else if s = "continue" then some (Token.simple .continue_)
  else if s = "else" then some (Token.simple .else_)
  else if s = "false" then some (Token.simple .false_)
  else if s = "for" then some (Token.simple .for_)
  else if s = "fun" then some (Token.simple .fun_)
  else if s = "if" then some (Token.simple .if_)
  else if s = "nil" then some (Token.simple .nil_)
  else if s = "or" then some (Token.simple .or_)
  else if s = "print" then some (Token.simple .print_)
  else if s = "return" then some (Token.simple .return_)
  else if s = "super" then some (Token.simple .super_)
  else if s = "this" then some (Token.simple .this_)
  else if s = "true" then some (Token.simple .true_)
  else if s = "var" then some (Token.simple .var_)
  else if s = "while" then some (Token.simple .while_)
  else none

/-- Helper `consume_identifier_or_keyword` from scanner.rs, entered
after the first alphabetic character has been consumed. -/
def consumeIdentOrKeyword (cs : List Char) (firstChar : Char) (line : Nat) :
    Token × List Char :=
  let r := identChars cs
  let s : String := ⟨firstChar :: r.1⟩
  match keywordToken s with
  | some f => (f line, r.2)
  | none => (Token.withLexeme .identifier s line, r.2)

/-- Main loop of `scan` (scanner.rs) with explicit fuel; each iteration
consumes at least one character, so the fuel supplied by `scan` never
runs out.  `none` models the `unwrap` panic inside `consume_number`.
The final branch silently skips both whitespace and unrecognized
characters, as the last two arms of the Rust `match` do. -/
def scanLoop : Nat → List Char → Nat → List Token → Option (List Token)
  | 0, _, _, _ => none
  | _ + 1, [], line, acc => some (acc ++ [Token.simple .eof line])
  | fuel + 1, c :: rest, line, acc =>
    if c = '(' then scanLoop fuel rest line (acc ++ [Token.simple .leftParen line])
    else if c = ')' then scanLoop fuel rest line (acc ++ [Token.simple .rightParen line])
    else if c = '{' then scanLoop fuel rest line (acc ++ [Token.simple .leftBrace line])
    else if c = '}' then scanLoop fuel rest line (acc ++ [Token.simple .rightBrace line])
    else if c = ',' then scanLoop fuel rest line (acc ++ [Token.simple .comma line])
    else if c = '.' then scanLoop fuel rest line (acc ++ [Token.simple .dot line])
    else if c = '-' then scanLoop fuel rest line (acc ++ [Token.simple .minus line])
    else if c = '+' then scanLoop fuel rest line (acc ++ [Token.simple .plus line])
    else if c = ';' then scanLoop fuel rest line (acc ++ [Token.simple .semicolon line])
    else if c = '/' then
      let r := consumeSlashOrComment rest line
      scanLoop fuel r.2.1 r.2.2 (acc ++ [r.1])
    else if c = '*' then scanLoop fuel rest line (acc ++ [Token.simple .star line])
    else if c = '!' then
      let r := consumeNextIf rest line '=' .bangEqual .bang
      scanLoop fuel r.2 line (acc ++ [r.1])
    else if c = '=' then
      let r := consumeNextIf rest line '=' .equalEqual .equal
      scanLoop fuel r.2 line (acc ++ [r.1])
    else if c = '>' then
      let r := consumeNextIf rest line '=' .greaterEqual .greater
      scanLoop fuel r.2 line (acc ++ [r.1])
    else if c = '<' then
      let r := consumeNextIf rest line '=' .lessEqual .less
      scanLoop fuel r.2 line (acc ++ [r.1])
    else if c = '"' then
      match consumeString rest line with
      | (some t, rest2, line2) => scanLoop fuel rest2 line2 (acc ++ [t])
      | (none, rest2, line2) => scanLoop fuel rest2 line2 acc
    else if c.isDigit then
      match consumeNumber rest c line with
      | (some t, rest2) => scanLoop fuel rest2 line (acc ++ [t])
      | (none, _) => none
    else if c.isAlpha then
      let r := consumeIdentOrKeyword rest c line
      scanLoop fuel r.2 line (acc ++ [r.1])
    else if c = '\n' then scanLoop fuel rest (line + 1) acc
    else scanLoop fuel rest line acc

/-- Entry point `scan` from scanner.rs.  The Rust signature is
`Result<Vec<Token>, Box<Error>>` but the function always returns `Ok`;
`none` here models a panic (never an `Err`). -/
def scan (cs : List Char) : Option (List Token) :=
  scanLoop (cs.length + 1) cs 1 []

/-- Scan a Lean string, defaulting to the empty token list on panic
(convenience wrapper used only to build concrete token sequences). -/
def scanTokens (s : String) : List Token :=
  (scan s.data).getD []

/-! ## AST (expression.rs, statement.rs) -/

/-- Expression nodes, from expression.rs `Expr`. -/
inductive Expr where
  | assign (name : Token) (value : Expr)
  | binary (left : Expr) (operator : Token) (right : Expr)
  | grouping (expression : Expr)
  | literal (value : Val)
  | logical (left : Expr) (operator : Token) (right : Expr)
  | unary (operator : Token) (right : Expr)
  | variable (name : Token)

/-- Statement nodes, from statement.rs `Stmt`. -/
inductive Stmt where
  | block (statements : List Stmt)
  | expression (e : Expr)
  | forS (initializer : Option Stmt) (condition : Expr) (increment : Option Stmt) (body : Stmt)
  | ifS (expression : Expr) (thenBranch : Stmt) (elseBranch : Option Stmt)
  | print (e : Expr)
  | var (name : Token) (initializer : Option Expr)

/-! ## Parser (parser.rs) -/

/-- Parse errors, from parser.rs `ParseError`: the expected token-kind
set and the token actually found. -/
structure PError where
  expected : List TokenType
  found : Token
  deriving Repr, DecidableEq

/-- Constructor `ParseError::new` from parser.rs: when no token was
found (input exhausted) an EOF token with line 0 stands in. -/
def PError.make (expected : List TokenType) (found : Option Token) : PError :=
  ⟨expected, found.getD (Token.simple .eof 0)⟩

/-- The `EXPECT_PRIMARY` token-kind set from parser.rs. -/
def EXPECT_PRIMARY : List TokenType :=
  [.number, .str, .true_, .false_, .nil_, .leftParen, .identifier]

/-- Error value returned when the parser's fuel runs out; never reached
for the fuel supplied by `parse` on the inputs considered (the Rust
code has no such case, it simply recurses). -/
def fuelPError : PError := ⟨[], Token.simple .invalid 0⟩

/-- Result of one parser production: on success the parsed value and the
remaining tokens, on failure the error and the remaining tokens (the
Rust parser's shared iterator keeps its position after a failed
`consume`/`parse_primary`, which matters for `synchronize`). -/
abbrev PRes (α : Type) := Except (PError × List Token) (α × List Token)

/-- Helper `next_is` from parser.rs: peek at the next token. -/
def nextIs (ts : List Token) (ms : List TokenType) : Bool :=
  match ts with
  | t :: _ => ms.contains t.tokenType
  | [] => false

/-- Helper `maybe_consume` from parser.rs. -/
def maybeConsume (ts : List Token) (ms : List TokenType) : Option Token × List Token :=
  match ts with
  | t :: rest => if ms.contains t.tokenType then (some t, rest) else (none, t :: rest)
  | [] => (none, [])

/-- Helper `consume` from parser.rs: always advances past the next
token; errors if it is missing or not one of the expected kinds. -/
def consume (ts : List Token) (ms : List TokenType) : PRes Token :=
  match ts with
  | t :: rest =>
    if ms.contains t.tokenType then .ok (t, rest)
    else .error (PError.make ms (some t), rest)
  | [] => .error (PError.make ms none, [])

/-- Modes of the expression parser, one per parser.rs production:
`expr` = `parse_expression`, `assign` = `parse_assignment`,
`equality`/`comparison`/`addition`/`multiplication` are the
`parse_binary` instances, `unary` = `parse_unary`, `primary` =
`parse_primary`.  The `…Loop` modes are the `while let` loop of
`parse_binary` with its accumulated left operand. -/
inductive EMode where
  | expr | assign | equality | comparison | addition | multiplication | unary | primary
  | equalityLoop (acc : Expr)
  | comparisonLoop (acc : Expr)
  | additionLoop (acc : Expr)
  | multiplicationLoop (acc : Expr)

/-- The expression parser of parser.rs (`parse_expression` through
`parse_primary`), fuel-indexed; all mutual recursion of the Rust
functions becomes recursion through `EMode` at smaller fuel. -/
def parseE : Nat → EMode → List Token → PRes Expr
  | 0, _, ts => .error (fuelPError, ts)
  | fuel + 1, mode, ts =>
    match mode with
    | .expr => parseE fuel .assign ts
    | .assign =>
      match parseE fuel .equality ts with
      | .error er => .error er
      | .ok (e, ts2) =>
        match maybeConsume ts2 [.equal] with
        | (some eq, ts3) =>
          match parseE fuel .assign ts3 with
          | .error er => .error er
          | .ok (v, ts4) =>
            match e with
            | .variable name => .ok (.assign name v, ts4)
            | _ => .error (PError.make [.identifier] (some eq), ts4)
        | (none, _) => .ok (e, ts2)
    | .equality =>
      match parseE fuel .comparison ts with
      | .error er => .error er
      | .ok (e, ts2) => parseE fuel (.equalityLoop e) ts2
    | .equalityLoop acc =>
      match maybeConsume ts [.bangEqual, .equalEqual] with
      | (some op, ts2) =>
        match parseE fuel .comparison ts2 with
        | .error er => .error er
        | .ok (r, ts3) => parseE fuel (.equalityLoop (.binary acc op r)) ts3
      | (none, _) => .ok (acc, ts)
    | .comparison =>
      match parseE fuel .addition ts with
      | .error er => .error er
      | .ok (e, ts2) => parseE fuel (.comparisonLoop e) ts2
    | .comparisonLoop acc =>
      match maybeConsume ts [.greater, .greaterEqual, .less, .lessEqual] with
      | (some op, ts2) =>
        match parseE fuel .addition ts2 with
        | .error er => .error er
        | .ok (r, ts3) => parseE fuel (.comparisonLoop (.binary acc op r)) ts3
      | (none, _) => .ok (acc, ts)
    | .addition =>
      match parseE fuel .multiplication ts with
      | .error er => .error er
      | .ok (e, ts2) => parseE fuel (.additionLoop e) ts2
    | .additionLoop acc =>
      match maybeConsume ts [.minus, .plus] with
      | (some op, ts2) =>
        match parseE fuel .multiplication ts2 with
        | .error er => .error er
        | .ok (r, ts3) => parseE fuel (.additionLoop (.binary acc op r)) ts3
      | (none, _) => .ok (acc, ts)
    | .multiplication =>
      match parseE fuel .unary ts with
      | .error er => .error er
      | .ok (e, ts2) => parseE fuel (.multiplicationLoop e) ts2
    | .multiplicationLoop acc =>
      match maybeConsume ts [.slash, .star] with
      | (some op, ts2) =>
        match parseE fuel .unary ts2 with
        | .error er => .error er
        | .ok (r, ts3) => parseE fuel (.multiplicationLoop (.binary acc op r)) ts3
      | (none, _) => .ok (acc, ts)
    | .unary =>
      match maybeConsume ts [.bang, .minus] with
      | (some op, ts2) =>
        match parseE fuel .unary ts2 with
        | .error er => .error er
        | .ok (r, ts3) => .ok (.unary op r, ts3)
      | (none, _) => parseE fuel .primary ts
    | .primary =>
      match ts with
      | [] => .error (PError.make EXPECT_PRIMARY none, [])
      | t :: rest =>
        if EXPECT_PRIMARY.contains t.tokenType then
          match t.tokenType with
          | .leftParen =>
            match parseE fuel .expr rest with
            | .error er => .error er
            | .ok (e, ts2) =>
              match consume ts2 [.rightParen] with
              | .error er => .error er
              | .ok (_, ts3) => .ok (.grouping e, ts3)
          | .identifier => .ok (.variable t, rest)
          | _ =>
            match t.literal with
            | some v => .ok (.literal v, rest)
            | none => .error (PError.make EXPECT_PRIMARY (some t), rest)
        else .error (PError.make EXPECT_PRIMARY (some t), rest)

/-- Modes of the statement parser, one per parser.rs production:
`declaration`, `varDecl` = `var_declaration`, `statement`, `ifS` =
`if_statement` (entered after the `if` token has been consumed — the
Rust function's leading `iter.next()` happens at the call site here),
`printS` = `print_statement` (likewise after `print`), `blockLoop` =
the `while` loop of `block_statement` (entered after `{`), `exprS` =
`expression_statement`. -/
inductive SMode where
  | declaration | varDecl | statement | ifS | printS | exprS
  | blockLoop (acc : List Stmt)

/-- The statement parser of parser.rs (`declaration` through
`expression_statement`), fuel-indexed. -/
def parseS : Nat → SMode → List Token → PRes Stmt
  | 0, _, ts => .error (fuelPError, ts)
  | fuel + 1, mode, ts =>
    match mode with
    | .declaration =>
      if nextIs ts [.var_] then parseS fuel .varDecl ts
      else parseS fuel .statement ts
    | .varDecl =>
      match consume ts [.var_] with
      | .error er => .error er
      | .ok (_, ts2) =>
        match consume ts2 [.identifier] with
        | .error er => .error er
        | .ok (name, ts3) =>
          match maybeConsume ts3 [.equal] with
          | (some _, ts4) =>
            match parseE fuel .expr ts4 with
            | .error er => .error er
            | .ok (init, ts5) =>
              match consume ts5 [.semicolon] with
              | .error er => .error er
              | .ok (_, ts6) => .ok (.var name (some init), ts6)
          | (none, ts4) =>
            match consume ts4 [.semicolon] with
            | .error er => .error er
            | .ok (_, ts5) => .ok (.var name none, ts5)
    | .statement =>
      if nextIs ts [.if_] then parseS fuel .ifS ts.tail
      else if nextIs ts [.print_] then parseS fuel .printS ts.tail
      else if nextIs ts [.leftBrace] then parseS fuel (.blockLoop []) ts.tail
      else parseS fuel .exprS ts
    | .ifS =>
      match consume ts [.leftParen] with
      | .error er => .error er
      | .ok (_, ts2) =>
        match parseE fuel .expr ts2 with
        | .error er => .error er
        | .ok (cond, ts3) =>
          match consume ts3 [.rightParen] with
          | .error er => .error er
          | .ok (_, ts4) =>
            match parseS fuel .statement ts4 with
            | .error er => .error er
            | .ok (thenB, ts5) =>
              match maybeConsume ts5 [.else_] with
              | (some _, ts6) =>
                match parseS fuel .statement ts6 with
                | .error er => .error er
                | .ok (elseB, ts7) => .ok (.ifS cond thenB (some elseB), ts7)
              | (none, _) => .ok (.ifS cond thenB none, ts5)
    | .printS =>
      match parseE fuel .expr ts with
      | .error er => .error er
      | .ok (e, ts2) =>
        match consume ts2 [.semicolon] with
        | .error er => .error er
        | .ok (_, ts3) => .ok (.print e, ts3)
    | .blockLoop acc =>
      if nextIs ts [.rightBrace] then
        -- the Rust code's trailing `consume(RightBrace)` cannot fail here
        .ok (.block acc, ts.tail)
      else
        match parseS fuel .declaration ts with
        | .error er => .error er
        | .ok (s, ts2) => parseS fuel (.blockLoop (acc ++ [s])) ts2
    | .exprS =>
      match parseE fuel .expr ts with
      | .error er => .error er
      | .ok (e, ts2) =>
        match consume ts2 [.semicolon] with
        | .error er => .error er
        | .ok (_, ts3) => .ok (.expression e, ts3)

/-- Error synchronization, from parser.rs `synchronize`: discard tokens
until just after a semicolon or EOF, or until the next token starts a
new statement or declaration. -/
def synchronize : List Token → List Token
  | [] => []
  | t :: rest =>
    if t.tokenType = .semicolon ∨ t.tokenType = .eof then rest
    else if nextIs rest [.class_, .fun_, .var_, .for_, .if_, .while_, .print_, .return_, .eof] then rest
    else synchronize rest

/-- Main loop of `parse` from parser.rs: parse declarations until EOF
(consumed) or exhaustion, recording errors and synchronizing; return
the statements if no error was recorded, the error list otherwise. -/
def parseLoop : Nat → List Token → List Stmt → List PError →
    Except (List PError) (List Stmt)
  | 0, _, _, errs => .error (errs ++ [fuelPError])
  | fuel + 1, ts, stmts, errs =>
    if nextIs ts [.eof] then
      if errs = [] then .ok stmts else .error errs
    else
      match ts with
      | [] => if errs = [] then .ok stmts else .error errs
      | _ =>
        match parseS fuel .declaration ts with
        | .ok (stmt, rest) => parseLoop fuel rest (stmts ++ [stmt]) errs
        | .error (e, rest) => parseLoop fuel (synchronize rest) stmts (errs ++ [e])

/-- Entry point `parse` from parser.rs.  The fuel is amply sufficient
for the token lists considered (each parser step either moves down the
fixed production chain or first consumes a token). -/
def parse (ts : List Token) : Except (List PError) (List Stmt) :=
  parseLoop (12 * (ts.length + 1)) ts [] []

/-! ## Environment (environment.rs) -/

/-- One scope's `values` map (Rust `HashMap<String, Rc<Value>>`),
modelled as an association list; `insert` replaces an existing key. -/
def insertKV (m : List (String × Val)) (k : String) (v : Val) : List (String × Val) :=
  match m with
  | [] => [(k, v)]
  | (k', v') :: rest => if k' = k then (k, v) :: rest else (k', v') :: insertKV rest k v

/-- Key lookup in one scope (Rust `HashMap::get`). -/
def lookupKV (m : List (String × Val)) (k : String) : Option Val :=
  match m with
  | [] => none
  | (k', v') :: rest => if k' = k then some v' else lookupKV rest k

/-- Key membership in one scope (Rust `HashMap::contains_key`). -/
def containsKey (m : List (String × Val)) (k : String) : Bool :=
  match m with
  | [] => false
  | (k', _) :: rest => if k' = k then true else containsKey rest k

/-- The chain of environments of environment.rs, head = innermost
scope; the `enclosing` pointer is the tail of the list.  `[[]]` is the
fresh global environment (`Environment::new()`). -/
abbrev EnvChain := List (List (String × Val))

/-- The fresh global environment, `Environment::new()` in main.rs. -/
def freshEnv : EnvChain := [[]]

/-- `Environment::define` from environment.rs: unconditionally binds in
the current (innermost) scope only. -/
def define (env : EnvChain) (name : String) (v : Val) : EnvChain :=
  match env with
  | scope :: rest => insertKV scope name v :: rest
  | [] => [[(name, v)]]

/-- `Environment::assign` from environment.rs: mutate the nearest scope
in which the name is already defined; `none` models the `false` return
(no scope in the chain defines the name, nothing is mutated). -/
def assign (env : EnvChain) (name : String) (v : Val) : Option EnvChain :=
  match env with
  | [] => none
  | scope :: rest =>
    if containsKey scope name then some (insertKV scope name v :: rest)
    else (assign rest name v).map (scope :: ·)

/-- `Environment::get` from environment.rs: look outward through the
chain. -/
def getVar (env : EnvChain) (name : String) : Option Val :=
  match env with
  | [] => none
  | scope :: rest =>
    match lookupKV scope name with
    | some v => some v
    | none => getVar rest name

/-! ## Evaluator (interpreter.rs) -/

/-- Runtime errors, from interpreter.rs `RuntimeError`: the offending
token's line and the message passed to `RuntimeError::new`. -/
structure RErr where
  line : Nat
  message : String
  deriving Repr, DecidableEq

/-- Error value produced when the statement interpreter's fuel runs
out; a modelling artifact for nonterminating loops, never reached at
the fuel used in the concrete theorems below. -/
def fuelRErr : RErr := ⟨0, "OUT OF FUEL"⟩

/-- Truthiness, from interpreter.rs `is_truthy`: Nil and false are
falsy, everything else truthy. -/
def isTruthy : Val → Bool
  | .nil => false
  | .boolean b => b
  | _ => true

/-- Equality, from interpreter.rs `is_equal`: Nil equals only Nil,
otherwise structural equality of the values.  (Rust compares `f64`
with IEEE semantics; the `ℚ` model agrees on all non-NaN values, and
no claim evaluates NaN.) -/
def isEqualV (l r : Val) : Bool :=
  match l with
  | .nil => match r with | .nil => true | _ => false
  | .num a => match r with | .num b => a.eqv b | _ => false
  | _ => l = r

/-- Canonical text of a value, from value.rs `Display`.  Rust renders
`f64` via its `Display`; for integral doubles (the only numbers any
claim prints) that is the plain integer text, which the `den = 1`
branch reproduces exactly; the fallback branch for non-integral
rationals approximates float formatting and is never evaluated by the
claims. -/
def valToString : Val → String
  | .nil => "nil"
  | .str s => s
  | .num q => if q.den = 1 then toString q.num else toString q.num ++ "/" ++ toString q.den
  -- den = 1 holds for every number a claim prints (integral doubles)
  | .boolean b => if b then "true" else "false"
  | .identifier s => s
  | .comment s => s

/-- Arithmetic dispatch, from interpreter.rs `arithmetic`: numbers
compute (division by zero is an error, tested before dividing); `+`
with a string on either side concatenates canonical texts; everything
else is a type error. -/
def arithmetic (l : Val) (op : Token) (r : Val) : Except RErr Val :=
  match l, r with
  | .num a, .num b =>
    match op.tokenType with
    | .minus => .ok (.num (a - b))
    | .plus => .ok (.num (a + b))
    | .slash => if b.isZero then .error ⟨op.line, "Can't divide by zero"⟩ else .ok (.num (a.div b))
    | .star => .ok (.num (a * b))
    | _ => .error ⟨op.line, "Operator '" ++ op.lexeme ++ "' is not valid for arithmetic"⟩
  | .str s, _ =>
    match op.tokenType with
    | .plus => .ok (.str (s ++ valToString r))
    | _ => .error ⟨op.line, "Operator '" ++ op.lexeme ++ "' is not valid for string concatenation"⟩
  | _, .str s =>
    match op.tokenType with
    | .plus => .ok (.str (valToString l ++ s))
    | _ => .error ⟨op.line, "Operator '" ++ op.lexeme ++ "' is not valid for string concatenation"⟩
  | _, _ => .error ⟨op.line, "Cannot perform arithmetic on non-numeric values"⟩

/-- Comparison dispatch, from interpreter.rs `compare`: both operands
must be numbers. -/
def compare (l : Val) (op : Token) (r : Val) : Except RErr Val :=
  match l, r with
  | .num a, .num b =>
    match op.tokenType with
    | .less => .ok (.boolean (a.blt b))
    | .lessEqual => .ok (.boolean (a.ble b))
    | .greater => .ok (.boolean (b.blt a))
    | .greaterEqual => .ok (.boolean (b.ble a))
    | _ => .error ⟨op.line, "Operator '" ++ op.lexeme ++ "' is not valid for comparison"⟩
  | _, _ => .error ⟨op.line, "Cannot perform comparison on non-numeric values"⟩

/-- Expression evaluation, from interpreter.rs `evaluate_expression`
and its helpers (`evaluate_assign`, `evaluate_binary`,
`evaluate_grouping`, `evaluate_literal`, `evaluate_logical`,
`evaluate_unary`, the `Variable` arm).  The environment is threaded
explicitly (the Rust code mutates it through the `Rc<RefCell<_>>`);
the environment returned alongside an error is the one holding the
mutations already performed. -/
def evalExpr (env : EnvChain) : Expr → EnvChain × Except RErr Val
  | .assign name value =>
    let r := evalExpr env value
    match r.2 with
    | .ok v =>
      match assign r.1 name.lexeme v with
      | some env2 => (env2, .ok v)
      | none => (r.1, .error ⟨name.line, "Undefined variable " ++ name.lexeme⟩)
    | .error e => (r.1, .error e)
  | .binary left op right =>
    let rl := evalExpr env left
    match rl.2 with
    | .error e => (rl.1, .error e)
    | .ok lv =>
      let rr := evalExpr rl.1 right
      match rr.2 with
      | .error e => (rr.1, .error e)
      | .ok rv =>
        match op.tokenType with
        | .minus => (rr.1, arithmetic lv op rv)
        | .plus => (rr.1, arithmetic lv op rv)
        | .slash => (rr.1, arithmetic lv op rv)
        | .star => (rr.1, arithmetic lv op rv)
        | .less => (rr.1, compare lv op rv)
        | .lessEqual => (rr.1, compare lv op rv)
        | .greater => (rr.1, compare lv op rv)
        | .greaterEqual => (rr.1, compare lv op rv)
        | .equalEqual => (rr.1, .ok (.boolean (isEqualV lv rv)))
        | .bangEqual => (rr.1, .ok (.boolean (! isEqualV lv rv)))
        | _ => (rr.1, .error ⟨op.line, "Operator '" ++ op.lexeme ++ "' is not valid for a binary expression"⟩)
  | .grouping e => evalExpr env e
  | .literal v => (env, .ok v)
  | .logical left op right =>
    let rl := evalExpr env left
    match rl.2 with
    | .error e => (rl.1, .error e)
    | .ok lv =>
      if op.tokenType = .or_ ∧ isTruthy lv = true then (rl.1, .ok lv)
      else if op.tokenType = .and_ ∧ isTruthy lv = false then (rl.1, .ok lv)
      else evalExpr rl.1 right
  | .unary op right =>
    let rr := evalExpr env right
    match rr.2 with
    | .error e => (rr.1, .error e)
    | .ok rv =>
      match op.tokenType with
      | .minus =>
        match rv with
        | .num n => (rr.1, .ok (.num (-n)))
        | _ => (rr.1, .error ⟨op.line, "Operator '-' cannot be applied to non-number value " ++ valToString rv⟩)
      | .bang => (rr.1, .ok (.boolean (! isTruthy rv)))
      | _ => (rr.1, .error ⟨op.line, "Operator '" ++ op.lexeme ++ "' is not valid in a unary expression"⟩)
  | .variable name =>
    match getVar env name.lexeme with
    | some v => (env, .ok v)
    | none => (env, .error ⟨name.line, "Undefined variable " ++ name.lexeme⟩)

/-- Interpreter state: the environment chain plus the lines printed so
far (the Rust code prints to stdout; the output list collects the
`println!` lines of `execute_print_stmt` in order). -/
structure St where
  env : EnvChain
  output : List String
  deriving Repr, DecidableEq

/-- Work items of the statement interpreter: `one` runs
`execute_stmt`, `many` runs the statement loop of `interpret` /
`execute_block`, `opt` runs an optional statement (for-initializer /
for-increment), `forLoop` is the `loop` of `execute_for_stmt`. -/
inductive ETask where
  | one (s : Stmt)
  | many (ss : List Stmt)
  | opt (s : Option Stmt)
  | forLoop (condition : Expr) (increment : Option Stmt) (body : Stmt)

/-- The statement interpreter of interpreter.rs (`execute_stmt` and its
helpers), fuel-indexed; the result pairs the final state with `none`
on success or the runtime error that halted execution (mutations and
output produced before the error are retained in the state). -/
def execT : Nat → ETask → St → St × Option RErr
  | 0, _, st => (st, some fuelRErr)
  | fuel + 1, task, st =>
    match task with
    | .one (.block ss) =>
      -- execute_block: fresh child scope, discarded on every exit path
      let r := execT fuel (.many ss) ⟨[] :: st.env, st.output⟩
      (⟨r.1.env.tail, r.1.output⟩, r.2)
    | .one (.expression e) =>
      let r := evalExpr st.env e
      (⟨r.1, st.output⟩, match r.2 with | .ok _ => none | .error er => some er)
    | .one (.forS init cond incr body) =>
      let r := execT fuel (.opt init) st
      match r.2 with
      | some er => (r.1, some er)
      | none => execT fuel (.forLoop cond incr body) r.1
    | .one (.ifS cond thenB elseB) =>
      let r := evalExpr st.env cond
      match r.2 with
      | .error er => (⟨r.1, st.output⟩, some er)
      | .ok v =>
        if isTruthy v then execT fuel (.one thenB) ⟨r.1, st.output⟩
        else
          match elseB with
          | some eb => execT fuel (.one eb) ⟨r.1, st.output⟩
          | none => (⟨r.1, st.output⟩, none)
    | .one (.print e) =>
      let r := evalExpr st.env e
      match r.2 with
      | .ok v => (⟨r.1, st.output ++ [valToString v]⟩, none)
      | .error er => (⟨r.1, st.output⟩, some er)
    | .one (.var name init) =>
      match init with
      | some ie =>
        let r := evalExpr st.env ie
        match r.2 with
        | .ok v => (⟨define r.1 name.lexeme v, st.output⟩, none)
        | .error er => (⟨r.1, st.output⟩, some er)
      | none => (⟨define st.env name.lexeme .nil, st.output⟩, none)
    | .many [] => (st, none)
    | .many (s :: rest) =>
      let r := execT fuel (.one s) st
      match r.2 with
      | some er => (r.1, some er)
      | none => execT fuel (.many rest) r.1
    | .opt none => (st, none)
    | .opt (some s) => execT fuel (.one s) st
    | .forLoop cond incr body =>
      let r := evalExpr st.env cond
      match r.2 with
      | .error er => (⟨r.1, st.output⟩, some er)
      | .ok v =>
        if isTruthy v then
          let rb := execT fuel (.one body) ⟨r.1, st.output⟩
          match rb.2 with
          | some er => (rb.1, some er)
          | none =>
            let ri := execT fuel (.opt incr) rb.1
            match ri.2 with
            | some er => (ri.1, some er)
            | none => execT fuel (.forLoop cond incr body) ri.1
        else (⟨r.1, st.output⟩, none)

/-- Entry point `interpret` from interpreter.rs: execute the statements
in order against the given environment, stopping at the first error. -/
def interpret (fuel : Nat) (env : EnvChain) (stmts : List Stmt) : St × Option RErr :=
  execT fuel (.many stmts) ⟨env, []⟩

/-! ## Pipeline (lib.rs) -/

/-- Diagnostics surfaced by `run`, from lib.rs: either the parse error
batch or the single runtime error. -/
inductive RunError where
  | parseErr (e : PError)
  | runtimeErr (e : RErr)
  deriving Repr, DecidableEq

/-- Entry point `run` from lib.rs: scan, then parse, then interpret.
`none` models a scanner panic; otherwise the printed lines, the final
environment and the overall result are returned. -/
def run (fuel : Nat) (env : EnvChain) (source : String) :
    Option (List String × EnvChain × Except (List RunError) Unit) :=
  match scan source.data with
  | none => none
  | some tokens =>
    match parse tokens with
    | .error es => some ([], env, .error (es.map .parseErr))
    | .ok stmts =>
      let r := interpret fuel env stmts
      some (r.1.output, r.1.env,
        match r.2 with
        | none => .ok ()
        | some er => .error [.runtimeErr er])

/-- Expression-level pipeline used by the precedence claims: scan the
source, parse one expression with `parse_expression`, evaluate it in a
fresh environment, and return the evaluation result. -/
def evalSource (s : String) : Option (Except RErr Val) :=
  let ts := scanTokens s
  match parseE (12 * (ts.length + 1)) .expr ts with
  | .ok (e, _) => some (evalExpr freshEnv e).2
  | .error _ => none

/-! ## Fixtures used by the concrete claims -/

/-- The identifier token `i` on line 1. -/
def iTok : Token := Token.withLexeme .identifier "i" 1

/-- Number-literal expression. -/
def numLit (n : QM) : Expr := .literal (.num n)

/-- The `Stmt::For` node (statement.rs `Stmt::for_`) that the spec's
desugaring of `for (var i = 0; i < 3; i = i + 1) print i;` describes:
initializer `var i = 0`, condition `i < 3`, increment `i = i + 1`,
body `print i`.  The parser of parser.rs never builds such a node; the
interpreter of interpreter.rs executes it via `execute_for_stmt`. -/
def forDesugared : Stmt :=
  .forS (some (.var iTok (some (numLit 0))))
    (.binary (.variable iTok) (Token.simple .less 1) (numLit 3))
    (some (.expression (.assign iTok (.binary (.variable iTok) (Token.simple .plus 1) (numLit 1)))))
    (.print (.variable iTok))

/-- The `Expr::Logical` node that the claimed parse of
`nil and (1/0)` would be: left `nil`, operator `and`, right the
grouped division `1 / 0`. -/
def logicalNilAndDivZero : Expr :=
  .logical (.literal .nil) (Token.simple .and_ 1)
    (.grouping (.binary (numLit 1) (Token.simple .slash 1) (numLit 0)))

/-! ## C9: precedence and grouping -/

/-- C9: through scan, parse and expression evaluation, `2 + 3 * 4`
yields Number(14) (multiplication binds tighter than addition) and
`(2 + 3) * 4` yields Number(20) (grouping overrides precedence). -/
theorem claimC9 :
    evalSource "2 + 3 * 4" = some (.ok (.num 14)) ∧
    evalSource "(2 + 3) * 4" = some (.ok (.num 20)) :=
  ⟨rfl, rfl⟩

/-! ## C3: escaped quote inside a string literal -/

/-- C3 (code bug): scanning `"a\"b" x` shows that the scanner *does*
terminate the string literal at the escaped quote `\"`: the `Str`
token's lexeme is `"a\"` and its literal payload is `a\` — not the
claimed `a\"b` running to the next unescaped quote.  (The Rust code
pushes the character before testing `ends_with("\\")`, so the test
inspects the quote itself and always succeeds at a quote.)  The later
properly-quoted run ` x` followed by end of input produces no token,
and `b` is scanned as an identifier. -/
theorem claimC3_escaped_quote_terminates :
    scan "\"a\\\"b\" x".data =
      some [Token.withLiteral .str "\"a\\\"" (.str "a\\") 1,
            Token.withLexeme .identifier "b" 1,
            Token.simple .eof 1] ∧
    (Val.str "a\\") ≠ (Val.str "a\\\"b") :=
  ⟨rfl, by decide⟩

/-! ## C4: totality of scan -/

/-- C4 (code bug): `scan` is not total.  On the input `1.2.3` the
maximal digit-and-dot run `1.2.3` is collected by `consume_number`,
`n.parse::<f64>()` fails (two dots), and the `unwrap` panics — modelled
by the `none` results of `parseNumLexeme` and `scan`.  A well-formed
lexeme such as `1.5` scans normally. -/
theorem claimC4_scan_panics :
    scan "1.2.3".data = none ∧
    parseNumLexeme "1.2.3".data = none ∧
    scan "1.5".data = some [Token.withLiteral .number "1.5" (.num ⟨15, 10⟩) 1,
                            Token.simple .eof 1] :=
  ⟨rfl, rfl, rfl⟩

/-! ## C1: the for-loop pipeline -/

/-- C1 counterexample: the full pipeline on
`for (var i = 0; i < 3; i = i + 1) print i;` does not print
`0`, `1`, `2` (it prints nothing). -/
theorem claimC1_counterexample :
    (run 100 freshEnv "for (var i = 0; i < 3; i = i + 1) print i;").map (fun r => r.1) ≠
      some ["0", "1", "2"] := by
  decide

/-- C1 amended: the parser has no `for` rule (`statement` in parser.rs
only handles `if`, `print`, `{` and expression statements), so the
pipeline on the for-loop source fails with exactly two ParseErrors
(the `for` keyword rejected by `parse_primary`, then `)` where `;` was
expected) and prints nothing; the interpreter's `execute_for_stmt`,
applied directly to the desugared `Stmt::For` node, does print
`0`, `1`, `2` and terminates with `i = 3` defined. -/
theorem claimC1_for_not_parsed :
    run 100 freshEnv "for (var i = 0; i < 3; i = i + 1) print i;" =
      some ([], freshEnv,
        .error [.parseErr ⟨EXPECT_PRIMARY, Token.simple .for_ 1⟩,
                .parseErr ⟨[.semicolon], Token.simple .rightParen 1⟩]) ∧
    execT 100 (.one forDesugared) ⟨freshEnv, []⟩ =
      (⟨[[("i", .num 3)]], ["0", "1", "2"]⟩, none) :=
  ⟨rfl, rfl⟩

/-! ## C2: short-circuit logical operators -/

/-- C2 counterexample: `nil and (1/0);` does not parse into a Logical
expression — the parser has no rule for `and`/`or`
(`parse_assignment` goes straight to `parse_equality`), so parse fails
with a ParseError at the `and` token. -/
theorem claimC2_counterexample :
    parse (scanTokens "nil and (1/0);") =
      .error [⟨[.semicolon], Token.simple .and_ 1⟩] :=
  rfl

/-- C2 amended: the pipeline on `nil and (1/0);` fails with a single
ParseError at the `and` token and prints nothing; the interpreter's
`evaluate_logical`, applied directly to the Logical node, returns Nil
without raising DivisionByZero, and in general `and` returns the left
value when it is falsy, `or` returns the left value when it is truthy,
and otherwise the right operand's value is returned. -/
theorem claimC2_logical :
    run 100 freshEnv "nil and (1/0);" =
      some ([], freshEnv, .error [.parseErr ⟨[.semicolon], Token.simple .and_ 1⟩]) ∧
    evalExpr freshEnv logicalNilAndDivZero = (freshEnv, .ok .nil) ∧
    (∀ env left right op env1 lv, evalExpr env left = (env1, .ok lv) →
      (op.tokenType = .and_ → isTruthy lv = false →
        evalExpr env (.logical left op right) = (env1, .ok lv)) ∧
      (op.tokenType = .or_ → isTruthy lv = true →
        evalExpr env (.logical left op right) = (env1, .ok lv)) ∧
      (op.tokenType = .and_ → isTruthy lv = true →
        evalExpr env (.logical left op right) = evalExpr env1 right) ∧
      (op.tokenType = .or_ → isTruthy lv = false →
        evalExpr env (.logical left op right) = evalExpr env1 right)) := by
  refine ⟨rfl, rfl, ?_⟩
  intro env left right op env1 lv h
  refine ⟨?_, ?_, ?_, ?_⟩ <;> intro h1 h2 <;> simp [evalExpr, h, h1, h2]

/-- Witness for the general part of `claimC2_logical`: `or` with a
truthy left operand returns the left value. -/
theorem claimC2_logical_witness :
    evalExpr freshEnv (.logical (numLit 5) (Token.simple .or_ 1) (.literal .nil)) =
      (freshEnv, .ok (.num 5)) :=
  (claimC2_logical.2.2 freshEnv (numLit 5) (.literal .nil) (Token.simple .or_ 1)
    freshEnv (.num 5) rfl).2.1 rfl rfl

/-! ## C6: parser error recovery -/

/-- Helper for C6: `synchronize` only ever discards a prefix of the
token list. -/
theorem synchronize_suffix (ts : List Token) : ∃ pre, ts = pre ++ synchronize ts := by
  induction ts with
  | nil => exact ⟨[], rfl⟩
  | cons t rest ih =>
    by_cases h1 : t.tokenType = TokenType.semicolon ∨ t.tokenType = TokenType.eof
    · exact ⟨[t], by simp [synchronize, h1]⟩
    · by_cases h2 : nextIs rest [.class_, .fun_, .var_, .for_, .if_, .while_, .print_, .return_, .eof] = true
      · exact ⟨[t], by simp [synchronize, h1, h2]⟩
      · obtain ⟨pre, hp⟩ := ih
        refine ⟨t :: pre, ?_⟩
        simpa [synchronize, h1, h2] using hp

/-- C6: one parse call on a source with two independent malformed
statements separated by `;` reports exactly two ParseErrors (shown on
two representative inputs), and after an error the parser discards
only a prefix of the remaining tokens before resuming (the
`synchronize` step), so later statements are still parsed. -/
theorem claimC6_error_recovery :
    parse (scanTokens "* 1; * 2;") =
      .error [⟨EXPECT_PRIMARY, Token.simple .star 1⟩,
              ⟨EXPECT_PRIMARY, Token.simple .star 1⟩] ∧
    parse (scanTokens "foo bar; baz qux;") =
      .error [⟨[.semicolon], Token.withLexeme .identifier "bar" 1⟩,
              ⟨[.semicolon], Token.withLexeme .identifier "qux" 1⟩] ∧
    (∀ ts : List Token, ∃ pre, ts = pre ++ synchronize ts) :=
  ⟨rfl, rfl, synchronize_suffix⟩

/-- Witness for the universally quantified part of
`claimC6_error_recovery`, at the first representative token list. -/
theorem claimC6_witness :
    ∃ pre, scanTokens "* 1; * 2;" = pre ++ synchronize (scanTokens "* 1; * 2;") :=
  claimC6_error_recovery.2.2 (scanTokens "* 1; * 2;")

/-! ## C7: assignment semantics -/

/-- Helper: one scope's lookup misses exactly when `contains_key` is
false. -/
theorem lookupKV_none_iff (m : List (String × Val)) (k : String) :
    lookupKV m k = none ↔ containsKey m k = false := by
  induction m with
  | nil => simp [lookupKV, containsKey]
  | cons p rest ih =>
    obtain ⟨k', v'⟩ := p
    by_cases h : k' = k <;> simp [lookupKV, containsKey, h, ih]

/-- Helper for C7: `assign` fails exactly when the name is undefined in
the whole chain (and then mutates nothing: the chain is returned
unchanged by the caller). -/
theorem assign_none_iff (env : EnvChain) (name : String) (v : Val) :
    assign env name v = none ↔ getVar env name = none := by
  induction env with
  | nil => simp [assign, getVar]
  | cons scope rest ih =>
    by_cases h : containsKey scope name = true
    · have hl : ¬ lookupKV scope name = none := by
        simp [lookupKV_none_iff, h]
      cases hlv : lookupKV scope name with
      | none => exact absurd hlv hl
      | some w => simp [assign, getVar, h, hlv]
    · have hl : lookupKV scope name = none := by
        simp only [Bool.not_eq_true] at h
        exact (lookupKV_none_iff scope name).mpr h
      simp [assign, getVar, h, hl, ih, Option.map_eq_none']

/-- Helper for C7: a successful `assign` rewrites exactly the nearest
scope in which the name is already defined, leaving every nearer scope
(none of which defines the name) and every farther scope untouched. -/
theorem assign_nearest (env : EnvChain) (name : String) (v : Val) (env' : EnvChain)
    (h : assign env name v = some env') :
    ∃ k, k < env.length ∧ containsKey (env.getD k []) name = true ∧
      (∀ j, j < k → containsKey (env.getD j []) name = false) ∧
      env' = env.set k (insertKV (env.getD k []) name v) := by
  induction env generalizing env' with
  | nil => simp [assign] at h
  | cons scope rest ih =>
    by_cases hc : containsKey scope name = true
    · simp only [assign, hc, if_true, Option.some.injEq] at h
      refine ⟨0, by simp, by simpa using hc, by omega, ?_⟩
      simp [← h]
    · cases hr : assign rest name v with
      | none => simp [assign, hc, hr] at h
      | some er =>
        simp only [assign, hc, Bool.false_eq_true, if_false, hr, Option.map_some',
          Option.some.injEq] at h
        obtain ⟨k, hk, hck, hbelow, hset⟩ := ih er hr
        refine ⟨k + 1, by simpa using hk, by simpa using hck, ?_, ?_⟩
        · intro j hj
          cases j with
          | zero => simpa using (Bool.not_eq_true _).mp hc
          | succ j' => simpa using hbelow j' (by omega)
        · simp [← h, hset]

/-- C7: assigning to a name undefined anywhere in the chain fails with
UndefinedVariable and creates no binding (`x = 1;` fails and leaves
the fresh environment unchanged, while `var x; x = 1; print x;`
prints `1`); in general `assign` fails exactly when the whole chain
lacks the name, and on success it mutates the nearest scope already
defining it. -/
theorem claimC7_assign :
    run 100 freshEnv "x = 1;" =
      some ([], freshEnv, .error [.runtimeErr ⟨1, "Undefined variable x"⟩]) ∧
    run 100 freshEnv "var x; x = 1; print x;" =
      some (["1"], [[("x", .num 1)]], .ok ()) ∧
    (∀ env name v, assign env name v = none ↔ getVar env name = none) ∧
    (∀ env name v env', assign env name v = some env' →
      ∃ k, k < env.length ∧ containsKey (env.getD k []) name = true ∧
        (∀ j, j < k → containsKey (env.getD j []) name = false) ∧
        env' = env.set k (insertKV (env.getD k []) name v)) :=
  ⟨rfl, rfl, assign_none_iff, assign_nearest⟩

/-- Witness for the general parts of `claimC7_assign`: assigning `x` in
a two-scope chain whose inner scope lacks `x` updates the outer scope
in place. -/
theorem claimC7_witness :
    ∃ k, k < ([[("y", Val.num 2)], [("x", Val.num 1)]] : EnvChain).length ∧
      containsKey (([[("y", Val.num 2)], [("x", Val.num 1)]] : EnvChain).getD k []) "x" = true ∧
      (∀ j, j < k →
        containsKey (([[("y", Val.num 2)], [("x", Val.num 1)]] : EnvChain).getD j []) "x" = false) ∧
      ([[("y", Val.num 2)], [("x", Val.num 5)]] : EnvChain) =
        ([[("y", Val.num 2)], [("x", Val.num 1)]] : EnvChain).set k
          (insertKV (([[("y", Val.num 2)], [("x", Val.num 1)]] : EnvChain).getD k []) "x" (Val.num 5)) :=
  claimC7_assign.2.2.2 [[("y", Val.num 2)], [("x", Val.num 1)]] "x" (Val.num 5)
    [[("y", Val.num 2)], [("x", Val.num 5)]] rfl

/-! ## C10: a closing quote ending the input drops the token -/

/-- Helper for C10: when the remaining input is quote-free content
followed by a closing quote, the `consume_string` loop consumes all of
it (every quote terminates the loop under the code's pushed-first
`ends_with` test, and exhaustion without a quote also ends it),
leaving no remaining input. -/
theorem consumeStringLoop_exhausts (content : List Char) (h : '"' ∉ content) :
    ∀ s0 line, ∃ s ln, consumeStringLoop (content ++ ['"']) s0 line = (s, [], ln) := by
  induction content with
  | nil =>
    intro s0 line
    simp only [List.nil_append, consumeStringLoop]
    split
    · exact ⟨_, _, rfl⟩
    · exact ⟨_, _, rfl⟩
  | cons c cs ih =>
    intro s0 line
    have hc : c ≠ '"' := fun hcq => h (hcq ▸ List.mem_cons_self c cs)
    have hcs : '"' ∉ cs := fun hm => h (List.mem_cons_of_mem c hm)
    obtain ⟨s, ln, hs⟩ := ih hcs (s0 ++ [c]) (if c = '\n' then line + 1 else line)
    refine ⟨s, ln, ?_⟩
    simp only [List.cons_append, consumeStringLoop]
    rw [if_neg (by simp [hc])]
    exact hs

/-- C10: if a string literal's closing quote is the very last character
of the source, the scanner emits no Str token for the (properly
terminated) literal — the token stream is just the EOF token, exactly
as for an unterminated string (`consume_string` only emits a token
when input remains after the closing quote). -/
theorem claimC10_trailing_quote_dropped (content : List Char) (h : '"' ∉ content) :
    ∃ ln, scan ('"' :: (content ++ ['"'])) = some [Token.simple .eof ln] := by
  obtain ⟨s, ln, hloop⟩ := consumeStringLoop_exhausts content h ['"'] 1
  refine ⟨ln, ?_⟩
  have h1 : scan ('"' :: (content ++ ['"'])) =
      scanLoop (content.length + 1 + 1 + 1) ('"' :: (content ++ ['"'])) 1 [] := by
    simp [scan]
  have h2 : scanLoop (content.length + 1 + 1 + 1) ('"' :: (content ++ ['"'])) 1 [] =
      (match consumeString (content ++ ['"']) 1 with
       | (some t, rest2, line2) => scanLoop (content.length + 1 + 1) rest2 line2 [t]
       | (none, rest2, line2) => scanLoop (content.length + 1 + 1) rest2 line2 []) := rfl
  have h3 : consumeString (content ++ ['"']) 1 = (none, [], ln) := by
    simp [consumeString, hloop]
  rw [h1, h2, h3]
  rfl

/-- Witness for `claimC10_trailing_quote_dropped` at the source
`"abc"`. -/
theorem claimC10_witness :
    ∃ ln, scan ('"' :: ("abc".data ++ ['"'])) = some [Token.simple .eof ln] :=
  claimC10_trailing_quote_dropped "abc".data (by decide)

/-! ## C8: an error halts the rest of the interpret call -/

/-- Helper for C8: statement execution only ever appends to the output
(printed lines are never undone). -/
theorem execT_output_extends : ∀ fuel task st, st.output <+: (execT fuel task st).1.output := by
  intro fuel
  induction fuel with
  | zero => intro task st; exact List.prefix_refl _
  | succ f ih =>
    intro task st
    cases task with
    | one s =>
      cases s with
      | block ss =>
        have h := ih (.many ss) ⟨[] :: st.env, st.output⟩
        simpa [execT] using h
      | expression e => rcases h : (evalExpr st.env e).2 <;> simp [execT, h]
      | forS init cond incr body =>
        have h1 := ih (.opt init) st
        rcases h : execT f (.opt init) st with ⟨st1, e1⟩
        rw [h] at h1
        cases e1 with
        | some er => simpa [execT, h] using h1
        | none =>
          have h2 := ih (.forLoop cond incr body) st1
          exact by simpa [execT, h] using h1.trans h2
      | ifS cond thenB elseB =>
        rcases h : (evalExpr st.env cond).2 with er | v
        · simp [execT, h]
        · by_cases ht : isTruthy v = true
          · have h1 := ih (.one thenB) ⟨(evalExpr st.env cond).1, st.output⟩
            simpa [execT, h, ht] using h1
          · cases elseB with
            | some eb =>
              have h1 := ih (.one eb) ⟨(evalExpr st.env cond).1, st.output⟩
              simpa [execT, h, ht] using h1
            | none => simp [execT, h, ht]
      | print e =>
        rcases h : (evalExpr st.env e).2 with er | v
        · simp [execT, h]
        · simp [execT, h]
      | var name init =>
        cases init with
        | some ie => rcases h : (evalExpr st.env ie).2 <;> simp [execT, h]
        | none => simp [execT]
    | many ss =>
      cases ss with
      | nil => simp [execT]
      | cons s rest =>
        have h1 := ih (.one s) st
        rcases h : execT f (.one s) st with ⟨st1, e1⟩
        rw [h] at h1
        cases e1 with
        | some er => simpa [execT, h] using h1
        | none =>
          have h2 := ih (.many rest) st1
          exact by simpa [execT, h] using h1.trans h2
    | opt o =>
      cases o with
      | none => simp [execT]
      | some s => simpa [execT] using ih (.one s) st
    | forLoop cond incr body =>
      rcases h : (evalExpr st.env cond).2 with er | v
      · simp [execT, h]
      · by_cases ht : isTruthy v = true
        · have h1 := ih (.one body) ⟨(evalExpr st.env cond).1, st.output⟩
          rcases hb : execT f (.one body) ⟨(evalExpr st.env cond).1, st.output⟩ with ⟨st1, e1⟩
          rw [hb] at h1
          cases e1 with
          | some er => simpa [execT, h, ht, hb] using h1
          | none =>
            have h2 := ih (.opt incr) st1
            rcases hi : execT f (.opt incr) st1 with ⟨st2, e2⟩
            rw [hi] at h2
            cases e2 with
            | some er => simpa [execT, h, ht, hb, hi] using h1.trans h2
            | none =>
              have h3 := ih (.forLoop cond incr body) st2
              simpa [execT, h, ht, hb, hi] using (h1.trans h2).trans h3
        · simp [execT, h, ht]

/-- Helper for C8: sequential statement execution, given a prefix that
succeeds and a next statement that errors, returns that error in the
state the failing statement left behind, never touching the remaining
statements. -/
theorem execT_many_error (pre : List Stmt) :
    ∀ fuel (bad : Stmt) (post : List Stmt) (st st1 st2 : St) (er : RErr),
      execT fuel (.many pre) st = (st1, none) →
      execT (fuel - pre.length - 1) (.one bad) st1 = (st2, some er) →
      execT fuel (.many (pre ++ bad :: post)) st = (st2, some er) := by
  induction pre with
  | nil =>
    intro fuel bad post st st1 st2 er hpre hbad
    cases fuel with
    | zero => exact absurd hpre (by simp [execT])
    | succ f =>
      have hst : st1 = st := by
        have h := hpre
        simp only [execT] at h
        exact (Prod.mk.injEq _ _ _ _).mp h |>.1.symm
      subst hst
      have hbad' : execT f (.one bad) st1 = (st2, some er) := by
        simp only [List.length_nil, Nat.sub_zero, Nat.add_sub_cancel] at hbad
        exact hbad
      simp [execT, hbad']
  | cons p pre' ih =>
    intro fuel bad post st st1 st2 er hpre hbad
    cases fuel with
    | zero => exact absurd hpre (by simp [execT])
    | succ f =>
      rcases hp : execT f (.one p) st with ⟨stp, ep⟩
      cases ep with
      | some e0 => simp [execT, hp] at hpre
      | none =>
        have hpre' : execT f (.many pre') stp = (st1, none) := by
          simpa [execT, hp] using hpre
        have hbad' : execT (f - pre'.length - 1) (.one bad) st1 = (st2, some er) := by
          simpa [List.length_cons, Nat.succ_sub_succ] using hbad
        have hrec := ih f bad post stp st1 st2 er hpre' hbad'
        simpa [execT, hp] using hrec

/-- C8: when `interpret` executes a statement sequence whose prefix
`pre` succeeds (ending in state `st1`) and whose next statement `bad`
raises a RuntimeError, the whole call returns that error in the state
`bad` left behind: no statement after `bad` runs, and the environment
mutations and printed output of the successful prefix are retained
(`st1.output` is a prefix of the final output; no rollback). -/
theorem claimC8_error_halts (fuel : Nat) (env : EnvChain) (pre : List Stmt) (bad : Stmt)
    (post : List Stmt) (st1 st2 : St) (er : RErr)
    (hpre : execT fuel (.many pre) ⟨env, []⟩ = (st1, none))
    (hbad : execT (fuel - pre.length - 1) (.one bad) st1 = (st2, some er)) :
    interpret fuel env (pre ++ bad :: post) = (st2, some er) ∧
    st1.output <+: st2.output := by
  constructor
  · exact execT_many_error pre fuel bad post ⟨env, []⟩ st1 st2 er hpre hbad
  · have h := execT_output_extends (fuel - pre.length - 1) (.one bad) st1
    rw [hbad] at h
    exact h

/-- Witness for `claimC8_error_halts`: `print 1; 1/0; print 2;` prints
`1`, then the division by zero halts execution before `print 2`. -/
theorem claimC8_witness :
    interpret 100 freshEnv
        [Stmt.print (numLit 1),
         Stmt.expression (.binary (numLit 1) (Token.simple .slash 1) (numLit 0)),
         Stmt.print (numLit 2)] =
      (⟨freshEnv, ["1"]⟩, some ⟨1, "Can't divide by zero"⟩) ∧
    (["1"] : List String) <+: ["1"] :=
  claimC8_error_halts 100 freshEnv [Stmt.print (numLit 1)]
    (Stmt.expression (.binary (numLit 1) (Token.simple .slash 1) (numLit 0)))
    [Stmt.print (numLit 2)] ⟨freshEnv, ["1"]⟩ ⟨freshEnv, ["1"]⟩
    ⟨1, "Can't divide by zero"⟩ rfl rfl

/-! ## C5: comment tokens always break parsing -/

/-- A token kind a successful parser step may consume: never a Comment
and never an EOF (no parser rule accepts or skips either). -/
def cleanTok (t : Token) : Prop :=
  t.tokenType ≠ TokenType.comment ∧ t.tokenType ≠ TokenType.eof

/-- The parser went from token list `ts` to remainder `r` consuming
only clean tokens. -/
def ConsumedClean (ts r : List Token) : Prop :=
  ∃ pre, ts = pre ++ r ∧ ∀ t ∈ pre, cleanTok t

theorem cc_refl (ts : List Token) : ConsumedClean ts ts :=
  ⟨[], rfl, by simp⟩

theorem cc_trans {ts r u : List Token} (h1 : ConsumedClean ts r) (h2 : ConsumedClean r u) :
    ConsumedClean ts u := by
  obtain ⟨p1, hp1, hc1⟩ := h1
  obtain ⟨p2, hp2, hc2⟩ := h2
  refine ⟨p1 ++ p2, by rw [hp1, hp2, List.append_assoc], ?_⟩
  intro t ht
  rcases List.mem_append.mp ht with h | h
  · exact hc1 t h
  · exact hc2 t h

theorem cc_cons {t : Token} {r u : List Token} (hc : cleanTok t) (h : ConsumedClean r u) :
    ConsumedClean (t :: r) u := by
  obtain ⟨p, hp, hcp⟩ := h
  refine ⟨t :: p, by rw [hp]; rfl, ?_⟩
  intro x hx
  rcases List.mem_cons.mp hx with h | h
  · exact h ▸ hc
  · exact hcp x h

/-- A token whose kind lies in a Comment-free, EOF-free kind set is
clean; every kind set the parser matches against is such a set. -/
theorem contains_clean {ms : List TokenType} (h1 : TokenType.comment ∉ ms)
    (h2 : TokenType.eof ∉ ms) {t : Token} (h : ms.contains t.tokenType = true) :
    cleanTok t := by
  have hm : t.tokenType ∈ ms := by simpa using h
  exact ⟨fun he => h1 (he ▸ hm), fun he => h2 (he ▸ hm)⟩

theorem maybeConsume_some {ts : List Token} {ms : List TokenType} {t : Token}
    {r : List Token} (h : maybeConsume ts ms = (some t, r)) :
    ts = t :: r ∧ ms.contains t.tokenType = true := by
  cases ts with
  | nil => simp [maybeConsume] at h
  | cons t0 rest =>
    by_cases hc : ms.contains t0.tokenType = true
    · simp only [maybeConsume, hc, if_true, Prod.mk.injEq, Option.some.injEq] at h
      exact ⟨by rw [h.1, h.2], h.1 ▸ hc⟩
    · simp only [maybeConsume] at h
      rw [if_neg hc] at h
      simp at h

theorem consume_ok {ts : List Token} {ms : List TokenType} {t : Token} {r : List Token}
    (h : consume ts ms = .ok (t, r)) :
    ts = t :: r ∧ ms.contains t.tokenType = true := by
  cases ts with
  | nil => simp [consume] at h
  | cons t0 rest =>
    by_cases hc : ms.contains t0.tokenType = true
    · simp only [consume, hc, if_true, Except.ok.injEq, Prod.mk.injEq] at h
      exact ⟨by rw [h.1, h.2], h.1 ▸ hc⟩
    · simp only [consume] at h
      rw [if_neg hc] at h
      simp at h

theorem nextIs_true {ts : List Token} {ms : List TokenType} (h : nextIs ts ms = true) :
    ∃ t r, ts = t :: r ∧ ms.contains t.tokenType = true := by
  cases ts with
  | nil => simp [nextIs] at h
  | cons t rest => exact ⟨t, rest, rfl, by simpa [nextIs] using h⟩

theorem maybeConsume_none {ts : List Token} {ms : List TokenType} {r : List Token}
    (h : maybeConsume ts ms = (none, r)) : r = ts := by
  cases ts with
  | nil =>
    simp only [maybeConsume, Prod.mk.injEq] at h
    exact h.2.symm
  | cons a b =>
    by_cases hca : ms.contains a.tokenType = true
    · simp only [maybeConsume] at h
      rw [if_pos hca] at h
      simp at h
    · simp only [maybeConsume] at h
      rw [if_neg hca] at h
      simp only [Prod.mk.injEq] at h
      exact h.2.symm

/-- Every successful expression-parser step consumes only clean tokens:
each token it advances past is matched against a kind set that
contains neither Comment nor EOF. -/
theorem parseE_clean : ∀ fuel mode ts e r, parseE fuel mode ts = .ok (e, r) →
    ConsumedClean ts r := by
  intro fuel
  induction fuel with
  | zero => intro mode ts e r h; simp [parseE] at h
  | succ f ih =>
    intro mode ts e r h
    cases mode with
    | expr =>
      simp only [parseE] at h
      exact ih .assign ts e r h
    | assign =>
      simp only [parseE] at h
      split at h
      · rename_i er0 h1
        exact absurd h (by simp)
      · rename_i e1 ts2 h1
        have cc1 := ih .equality ts e1 ts2 h1
        split at h
        · rename_i eq ts3 h2
          split at h
          · rename_i er0 h3
            exact absurd h (by simp)
          · rename_i v ts4 h3
            have cc2 := ih .assign ts3 v ts4 h3
            obtain ⟨hts2, hceq⟩ := maybeConsume_some h2
            have hcl : cleanTok eq := contains_clean (by decide) (by decide) hceq
            have cct : ConsumedClean ts ts4 := cc_trans cc1 (hts2 ▸ cc_cons hcl cc2)
            split at h
            · rename_i name h4
              simp only [Except.ok.injEq, Prod.mk.injEq] at h
              exact h.2 ▸ cct
            · rename_i x h4
              exact absurd h (by simp)
        · rename_i ts3 h2
          simp only [Except.ok.injEq, Prod.mk.injEq] at h
          exact h.2 ▸ cc1
    | equality =>
      simp only [parseE] at h
      split at h
      · rename_i er0 h1
        exact absurd h (by simp)
      · rename_i e1 ts2 h1
        exact cc_trans (ih .comparison ts e1 ts2 h1) (ih (.equalityLoop e1) ts2 e r h)
    | equalityLoop acc =>
      simp only [parseE] at h
      split at h
      · rename_i op ts2 h2
        split at h
        · rename_i er0 h3
          exact absurd h (by simp)
        · rename_i r1 ts3 h3
          obtain ⟨hts, hcop⟩ := maybeConsume_some h2
          have hcl : cleanTok op := contains_clean (by decide) (by decide) hcop
          exact hts ▸ cc_cons hcl
            (cc_trans (ih .comparison ts2 r1 ts3 h3)
              (ih (.equalityLoop (acc.binary op r1)) ts3 e r h))
      · rename_i ts2 h2
        simp only [Except.ok.injEq, Prod.mk.injEq] at h
        exact h.2 ▸ cc_refl ts
    | comparison =>
      simp only [parseE] at h
      split at h
      · rename_i er0 h1
        exact absurd h (by simp)
      · rename_i e1 ts2 h1
        exact cc_trans (ih .addition ts e1 ts2 h1) (ih (.comparisonLoop e1) ts2 e r h)
    | comparisonLoop acc =>
      simp only [parseE] at h
      split at h
      · rename_i op ts2 h2
        split at h
        · rename_i er0 h3
          exact absurd h (by simp)
        · rename_i r1 ts3 h3
          obtain ⟨hts, hcop⟩ := maybeConsume_some h2
          have hcl : cleanTok op := contains_clean (by decide) (by decide) hcop
          exact hts ▸ cc_cons hcl
            (cc_trans (ih .addition ts2 r1 ts3 h3)
              (ih (.comparisonLoop (acc.binary op r1)) ts3 e r h))
      · rename_i ts2 h2
        simp only [Except.ok.injEq, Prod.mk.injEq] at h
        exact h.2 ▸ cc_refl ts
    | addition =>
      simp only [parseE] at h
      split at h
      · rename_i er0 h1
        exact absurd h (by simp)
      · rename_i e1 ts2 h1
        exact cc_trans (ih .multiplication ts e1 ts2 h1) (ih (.additionLoop e1) ts2 e r h)
    | additionLoop acc =>
      simp only [parseE] at h
      split at h
      · rename_i op ts2 h2
        split at h
        · rename_i er0 h3
          exact absurd h (by simp)
        · rename_i r1 ts3 h3
          obtain ⟨hts, hcop⟩ := maybeConsume_some h2
          have hcl : cleanTok op := contains_clean (by decide) (by decide) hcop
          exact hts ▸ cc_cons hcl
            (cc_trans (ih .multiplication ts2 r1 ts3 h3)
              (ih (.additionLoop (acc.binary op r1)) ts3 e r h))
      · rename_i ts2 h2
        simp only [Except.ok.injEq, Prod.mk.injEq] at h
        exact h.2 ▸ cc_refl ts
    | multiplication =>
      simp only [parseE] at h
      split at h
      · rename_i er0 h1
        exact absurd h (by simp)
      · rename_i e1 ts2 h1
        exact cc_trans (ih .unary ts e1 ts2 h1) (ih (.multiplicationLoop e1) ts2 e r h)
    | multiplicationLoop acc =>
      simp only [parseE] at h
      split at h
      · rename_i op ts2 h2
        split at h
        · rename_i er0 h3
          exact absurd h (by simp)
        · rename_i r1 ts3 h3
          obtain ⟨hts, hcop⟩ := maybeConsume_some h2
          have hcl : cleanTok op := contains_clean (by decide) (by decide) hcop
          exact hts ▸ cc_cons hcl
            (cc_trans (ih .unary ts2 r1 ts3 h3)
              (ih (.multiplicationLoop (acc.binary op r1)) ts3 e r h))
      · rename_i ts2 h2
        simp only [Except.ok.injEq, Prod.mk.injEq] at h
        exact h.2 ▸ cc_refl ts
    | unary =>
      simp only [parseE] at h
      split at h
      · rename_i op ts2 h2
        split at h
        · rename_i er0 h3
          exact absurd h (by simp)
        · rename_i r1 ts3 h3
          simp only [Except.ok.injEq, Prod.mk.injEq] at h
          obtain ⟨hts, hcop⟩ := maybeConsume_some h2
          have hcl : cleanTok op := contains_clean (by decide) (by decide) hcop
          exact h.2 ▸ hts ▸ cc_cons hcl (ih .unary ts2 r1 ts3 h3)
      · rename_i ts2 h2
        exact ih .primary ts e r h
    | primary =>
      simp only [parseE] at h
      split at h
      · exact absurd h (by simp)
      · rename_i t rest
        split at h
        · rename_i hp
          have hct : cleanTok t := contains_clean (by decide) (by decide) hp
          split at h
          · rename_i htt
            split at h
            · rename_i er0 h1
              exact absurd h (by simp)
            · rename_i e1 ts2 h1
              split at h
              · rename_i er0 h2
                exact absurd h (by simp)
              · rename_i tp ts3 h2
                simp only [Except.ok.injEq, Prod.mk.injEq] at h
                obtain ⟨hts2, hcp2⟩ := consume_ok h2
                have hclp : cleanTok tp := contains_clean (by decide) (by decide) hcp2
                exact h.2 ▸ cc_cons hct
                  (cc_trans (ih .expr rest e1 ts2 h1) (hts2 ▸ cc_cons hclp (cc_refl ts3)))
          · rename_i htt
            simp only [Except.ok.injEq, Prod.mk.injEq] at h
            exact h.2 ▸ cc_cons hct (cc_refl rest)
          · rename_i x htt
            split at h
            · rename_i v hlit
              simp only [Except.ok.injEq, Prod.mk.injEq] at h
              exact h.2 ▸ cc_cons hct (cc_refl rest)
            · rename_i hlit
              exact absurd h (by simp)
        · rename_i hp
          exact absurd h (by simp)

/-- Every successful statement-parser step consumes only clean tokens. -/
theorem parseS_clean : ∀ fuel mode ts s r, parseS fuel mode ts = .ok (s, r) →
    ConsumedClean ts r := by
  intro fuel
  induction fuel with
  | zero => intro mode ts s r h; simp [parseS] at h
  | succ f ih =>
    intro mode ts s r h
    cases mode with
    | declaration =>
      simp only [parseS] at h
      split at h
      · exact ih .varDecl ts s r h
      · exact ih .statement ts s r h
    | varDecl =>
      simp only [parseS] at h
      split at h
      · rename_i er0 h1
        exact absurd h (by simp)
      · rename_i tv ts2 h1
        obtain ⟨hts, hcv⟩ := consume_ok h1
        have hclv : cleanTok tv := contains_clean (by decide) (by decide) hcv
        split at h
        · rename_i er0 h2
          exact absurd h (by simp)
        · rename_i name ts3 h2
          obtain ⟨hts2, hcn⟩ := consume_ok h2
          have hcln : cleanTok name := contains_clean (by decide) (by decide) hcn
          split at h
          · rename_i eqt ts4 h3
            obtain ⟨hts3, hce⟩ := maybeConsume_some h3
            have hcle : cleanTok eqt := contains_clean (by decide) (by decide) hce
            split at h
            · rename_i er0 h4
              exact absurd h (by simp)
            · rename_i init ts5 h4
              split at h
              · rename_i er0 h5
                exact absurd h (by simp)
              · rename_i tsc ts6 h5
                obtain ⟨hts5, hcs⟩ := consume_ok h5
                have hcls : cleanTok tsc := contains_clean (by decide) (by decide) hcs
                simp only [Except.ok.injEq, Prod.mk.injEq] at h
                exact h.2 ▸ (hts ▸ cc_cons hclv (hts2 ▸ cc_cons hcln (hts3 ▸ cc_cons hcle
                  (cc_trans (parseE_clean f .expr ts4 init ts5 h4)
                    (hts5 ▸ cc_cons hcls (cc_refl ts6))))))
          · rename_i ts4 h3
            have hts3 : ts4 = ts3 := maybeConsume_none h3
            split at h
            · rename_i er0 h4
              exact absurd h (by simp)
            · rename_i tsc ts5 h4
              obtain ⟨hts4, hcs⟩ := consume_ok h4
              have hcls : cleanTok tsc := contains_clean (by decide) (by decide) hcs
              simp only [Except.ok.injEq, Prod.mk.injEq] at h
              exact h.2 ▸ (hts ▸ cc_cons hclv (hts2 ▸ cc_cons hcln
                (hts3 ▸ hts4 ▸ cc_cons hcls (cc_refl ts5))))
    | statement =>
      simp only [parseS] at h
      split at h
      · rename_i h1
        obtain ⟨t, rest, hts, hcont⟩ := nextIs_true h1
        have hclt : cleanTok t := contains_clean (by decide) (by decide) hcont
        rw [hts] at h
        simp only [List.tail_cons] at h
        exact hts ▸ cc_cons hclt (ih .ifS rest s r h)
      · rename_i h1
        split at h
        · rename_i h2
          obtain ⟨t, rest, hts, hcont⟩ := nextIs_true h2
          have hclt : cleanTok t := contains_clean (by decide) (by decide) hcont
          rw [hts] at h
          simp only [List.tail_cons] at h
          exact hts ▸ cc_cons hclt (ih .printS rest s r h)
        · rename_i h2
          split at h
          · rename_i h3
            obtain ⟨t, rest, hts, hcont⟩ := nextIs_true h3
            have hclt : cleanTok t := contains_clean (by decide) (by decide) hcont
            rw [hts] at h
            simp only [List.tail_cons] at h
            exact hts ▸ cc_cons hclt (ih (.blockLoop []) rest s r h)
          · rename_i h3
            exact ih .exprS ts s r h
    | ifS =>
      simp only [parseS] at h
      split at h
      · rename_i er0 h1
        exact absurd h (by simp)
      · rename_i tlp ts2 h1
        obtain ⟨hts, hclp0⟩ := consume_ok h1
        have hcl1 : cleanTok tlp := contains_clean (by decide) (by decide) hclp0
        split at h
        · rename_i er0 h2
          exact absurd h (by simp)
        · rename_i cond ts3 h2
          split at h
          · rename_i er0 h3
            exact absurd h (by simp)
          · rename_i trp ts4 h3
            obtain ⟨hts3, hcrp⟩ := consume_ok h3
            have hcl2 : cleanTok trp := contains_clean (by decide) (by decide) hcrp
            split at h
            · rename_i er0 h4
              exact absurd h (by simp)
            · rename_i thenB ts5 h4
              split at h
              · rename_i tel ts6 h5
                obtain ⟨hts5, hcel⟩ := maybeConsume_some h5
                have hcl3 : cleanTok tel := contains_clean (by decide) (by decide) hcel
                split at h
                · rename_i er0 h6
                  exact absurd h (by simp)
                · rename_i elseB ts7 h6
                  simp only [Except.ok.injEq, Prod.mk.injEq] at h
                  exact h.2 ▸ (hts ▸ cc_cons hcl1
                    (cc_trans (parseE_clean f .expr ts2 cond ts3 h2)
                      (hts3 ▸ cc_cons hcl2 (cc_trans (ih .statement ts4 thenB ts5 h4)
                        (hts5 ▸ cc_cons hcl3 (ih .statement ts6 elseB ts7 h6))))))
              · rename_i ts6 h5
                simp only [Except.ok.injEq, Prod.mk.injEq] at h
                exact h.2 ▸ (hts ▸ cc_cons hcl1
                  (cc_trans (parseE_clean f .expr ts2 cond ts3 h2)
                    (hts3 ▸ cc_cons hcl2 (ih .statement ts4 thenB ts5 h4))))
    | printS =>
      simp only [parseS] at h
      split at h
      · rename_i er0 h1
        exact absurd h (by simp)
      · rename_i e1 ts2 h1
        split at h
        · rename_i er0 h2
          exact absurd h (by simp)
        · rename_i tsc ts3 h2
          obtain ⟨hts2, hcs⟩ := consume_ok h2
          have hcls : cleanTok tsc := contains_clean (by decide) (by decide) hcs
          simp only [Except.ok.injEq, Prod.mk.injEq] at h
          exact h.2 ▸ cc_trans (parseE_clean f .expr ts e1 ts2 h1)
            (hts2 ▸ cc_cons hcls (cc_refl ts3))
    | exprS =>
      simp only [parseS] at h
      split at h
      · rename_i er0 h1
        exact absurd h (by simp)
      · rename_i e1 ts2 h1
        split at h
        · rename_i er0 h2
          exact absurd h (by simp)
        · rename_i tsc ts3 h2
          obtain ⟨hts2, hcs⟩ := consume_ok h2
          have hcls : cleanTok tsc := contains_clean (by decide) (by decide) hcs
          simp only [Except.ok.injEq, Prod.mk.injEq] at h
          exact h.2 ▸ cc_trans (parseE_clean f .expr ts e1 ts2 h1)
            (hts2 ▸ cc_cons hcls (cc_refl ts3))
    | blockLoop acc =>
      simp only [parseS] at h
      split at h
      · rename_i h1
        obtain ⟨t, rest, hts, hcont⟩ := nextIs_true h1
        have hclt : cleanTok t := contains_clean (by decide) (by decide) hcont
        simp only [Except.ok.injEq, Prod.mk.injEq] at h
        have hr : r = rest := by
          rw [hts] at h
          simpa using h.2.symm
        subst hr
        subst hts
        exact cc_cons hclt (cc_refl _)
      · rename_i h1
        split at h
        · rename_i er0 h2
          exact absurd h (by simp)
        · rename_i s1 ts2 h2
          exact cc_trans (ih .declaration ts s1 ts2 h2) (ih (.blockLoop (acc ++ [s1])) ts2 s r h)

/-- A Comment token occurs before the first EOF token. -/
def commentBeforeEof : List Token → Bool
  | [] => false
  | t :: rest =>
    if t.tokenType = TokenType.eof then false
    else if t.tokenType = TokenType.comment then true
    else commentBeforeEof rest

theorem commentBeforeEof_append (pre rest : List Token) (h : ∀ t ∈ pre, cleanTok t) :
    commentBeforeEof (pre ++ rest) = commentBeforeEof rest := by
  induction pre with
  | nil => rfl
  | cons t p ih =>
    have hct := h t (List.mem_cons_self t p)
    simp only [List.cons_append, commentBeforeEof, if_neg hct.2, if_neg hct.1]
    exact ih (fun x hx => h x (List.mem_cons_of_mem t hx))

/-- The parse loop succeeds only if no error was recorded and no
Comment token occurs before the first EOF (successful declarations
consume only clean tokens; a Comment would force an error). -/
theorem parseLoop_ok : ∀ fuel ts stmts errs out, parseLoop fuel ts stmts errs = .ok out →
    errs = [] ∧ commentBeforeEof ts = false := by
  intro fuel
  induction fuel with
  | zero => intro ts stmts errs out h; simp [parseLoop] at h
  | succ f ih =>
    intro ts stmts errs out h
    simp only [parseLoop] at h
    split at h
    · rename_i h1
      obtain ⟨t, rest, hts, hcont⟩ := nextIs_true h1
      have ht : t.tokenType = TokenType.eof := by simpa using hcont
      split at h
      · rename_i h2
        refine ⟨h2, ?_⟩
        rw [hts]
        simp [commentBeforeEof, ht]
      · rename_i h2
        exact absurd h (by simp)
    · rename_i h1
      split at h
      · split at h
        · rename_i h2
          exact ⟨h2, rfl⟩
        · rename_i h2
          exact absurd h (by simp)
      · split at h
        · rename_i stmt rest2 h2
          obtain ⟨herr, hcbe⟩ := ih rest2 (stmts ++ [stmt]) errs out h
          obtain ⟨pre, hpre, hclean⟩ := parseS_clean f .declaration ts stmt rest2 h2
          refine ⟨herr, ?_⟩
          rw [hpre, commentBeforeEof_append pre rest2 hclean]
          exact hcbe
        · rename_i e0 rest2 h2
          have herr := (ih (synchronize rest2) stmts (errs ++ [e0]) out h).1
          exact absurd herr (by simp)

/-- C5: the scanner turns `//` and `/* */` comments into Comment
tokens in the token sequence (shown on two representative sources),
and any token sequence containing a Comment token before its first
EOF cannot parse: `parse` returns at least one ParseError, because no
parser rule accepts or skips a Comment token. -/
theorem claimC5_comments_break_parsing :
    (∃ ts, scan "print 1; // note".data = some ts ∧ commentBeforeEof ts = true) ∧
    (∃ ts, scan "/* c */ print 1;".data = some ts ∧ commentBeforeEof ts = true) ∧
    (∀ ts, commentBeforeEof ts = true → ∃ es, parse ts = .error es) := by
  refine ⟨⟨_, rfl, rfl⟩, ⟨_, rfl, rfl⟩, ?_⟩
  intro ts hc
  cases hp : parse ts with
  | ok out =>
    have hfalse := (parseLoop_ok (12 * (ts.length + 1)) ts [] [] out hp).2
    rw [hfalse] at hc
    cases hc
  | error es => exact ⟨es, rfl⟩

/-- Witness for the universally quantified part of
`claimC5_comments_break_parsing`, at the scanned line-comment
source. -/
theorem claimC5_witness :
    ∃ es, parse (scanTokens "print 1; // note") = .error es :=
  claimC5_comments_break_parsing.2.2 (scanTokens "print 1; // note") (by rfl)

end RLox
